import Mathlib

/-!
# x-research-skill — verification of the bookmark monitor and the OAuth PKCE authorizer

A shallow embedding of the two scripts of the repository:

* `scripts/bookmarks.ts` — the bookmark monitor: relevance scoring
  (`scoreRelevance`), keyword-table derivation (`extractProjectKeywords`),
  seen-set persistence (`loadSeen`), the bookmarks API call
  (`fetchBookmarks`), the user-id lookup (`lookupUserId`) and the main
  ingest loop, modelled as pure functions over an explicit environment that
  carries the file contents and the HTTP responses the script would read.
* `scripts/auth/get-bookmark-token.ts` — the authorizer: the PKCE challenge
  derivation (`generateCodeChallenge`, over a concrete SHA-256 and URL-safe
  base64 implementation) and the one-shot callback handler.

Strings are Lean `String`s (lists of characters); JavaScript string indices
are modelled as character positions. Machine words inside SHA-256 are `Nat`
reduced `% 2^32` where the source's 32-bit arithmetic overflows.
-/

/-! ## Generic string helpers (JavaScript `String.prototype` operations) -/

/-- `leadsWith needle hay`: `needle` is a prefix of `hay` (character lists). -/
def leadsWith : List Char → List Char → Bool
  | [], _ => true
  | _ :: _, [] => false
  | p :: ps, h :: hs => p = h && leadsWith ps hs

/-- First position (counting from `i`) at which `pat` occurs in `hay`;
`none` when it does not occur.  Backs both `String.prototype.includes` and
`String.prototype.indexOf`. -/
def findSubAux : List Char → List Char → Nat → Option Nat
  | [], pat, i => if pat = [] then some i else none
  | h :: t, pat, i =>
    if leadsWith pat (h :: t) then some i else findSubAux t pat (i + 1)

/-- JavaScript `hay.indexOf(pat, start)` as a character position, `none` for `-1`. -/
def strIndexOfFrom (hay pat : List Char) (start : Nat) : Option Nat :=
  (findSubAux (hay.drop start) pat 0).map (· + start)

/-- JavaScript `hay.includes(needle)`. -/
def strIncludes (hay needle : String) : Bool :=
  (findSubAux hay.data needle.data 0).isSome

/-- Deduplication with an accumulator of the elements already emitted: skip
an element that was seen before, otherwise emit it and remember it. -/
def dedupFirstAux : List String → List String → List String
  | [], _ => []
  | x :: xs, emitted =>
    if emitted.contains x then dedupFirstAux xs emitted
    else x :: dedupFirstAux xs (emitted ++ [x])

/-- `[...new Set(words)]` of JavaScript: deduplicate keeping the first
occurrence of each element, in order. -/
def dedupFirst (l : List String) : List String := dedupFirstAux l []

theorem dedupFirstAux_length_le :
    ∀ (l emitted : List String), (dedupFirstAux l emitted).length ≤ l.length
  | [], _ => Nat.le_refl _
  | x :: xs, emitted => by
    unfold dedupFirstAux
    split
    · exact Nat.le_trans (dedupFirstAux_length_le xs emitted) (Nat.le_succ _)
    · simpa using dedupFirstAux_length_le xs (emitted ++ [x])

theorem dedupFirst_length_le (l : List String) : (dedupFirst l).length ≤ l.length :=
  dedupFirstAux_length_le l []

theorem mem_of_mem_dedupFirstAux :
    ∀ (l emitted : List String) (w : String), w ∈ dedupFirstAux l emitted → w ∈ l
  | [], _, w, hw => by cases hw
  | x :: xs, emitted, w, hw => by
    unfold dedupFirstAux at hw
    split at hw
    · exact List.mem_cons_of_mem x (mem_of_mem_dedupFirstAux xs emitted w hw)
    · rcases List.mem_cons.mp hw with rfl | hw
      · exact List.mem_cons_self _ _
      · exact List.mem_cons_of_mem x (mem_of_mem_dedupFirstAux xs (emitted ++ [x]) w hw)

theorem mem_of_mem_dedupFirst (l : List String) (w : String) (hw : w ∈ dedupFirst l) :
    w ∈ l :=
  mem_of_mem_dedupFirstAux l [] w hw

/-- JavaScript `toLowerCase()` on ASCII letters, character by character
(implemented over the character list so that it computes by reduction). -/
def strToLower (s : String) : String := String.mk (s.data.map Char.toLower)

/-- JavaScript `trim()`: strip whitespace from both ends. -/
def strTrim (s : String) : String :=
  String.mk (((s.data.dropWhile Char.isWhitespace).reverse.dropWhile Char.isWhitespace).reverse)

/-- Split a character list at newline characters (the lines the `m`-flag
anchors `^`/`$` around). -/
def splitLinesAux : List Char → List Char → List (List Char)
  | [], acc => [acc.reverse]
  | c :: t, acc =>
    if c = '\n' then acc.reverse :: splitLinesAux t [] else splitLinesAux t (c :: acc)

/-! ## Relevance scoring (`scoreRelevance`, bookmarks.ts lines 144–165) -/

/-- One row of the project-keyword table (`interface ProjectKeywords`). -/
structure ProjectKeywords where
  project : String
  keywords : List String
  deriving DecidableEq, Inhabited, Repr

/-- The record `scoreRelevance` returns. -/
structure ScoreResult where
  score : Nat
  reason : String
  project : String
  deriving DecidableEq, Inhabited, Repr

/-- The keywords of `pk` whose lowercasing occurs in the (already lowered)
text — `keywords.filter((kw) => text.includes(kw.toLowerCase()))`. -/
def matchedKeywords (text : String) (pk : ProjectKeywords) : List String :=
  pk.keywords.filter (fun kw => strIncludes text (strToLower kw))

/-- The loop body of `scoreRelevance`: update the running best when this
project scores strictly higher. -/
def scoreStep (text : String) (best : ScoreResult) (pk : ProjectKeywords) : ScoreResult :=
  let matched := matchedKeywords text pk
  if matched.length = 0 then best
  else
    let score := if 3 ≤ matched.length then 3 else if 1 ≤ matched.length then 2 else 1
    if best.score < score then
      { score := score,
        reason := "Matches " ++ pk.project ++ ": " ++ String.intercalate ", " (matched.take 3),
        project := pk.project }
    else best

/-- `scoreRelevance(tweetText, projects)`: lowercase the text once, then fold
the strict-improvement update over the project table in order, starting from
score 0, empty reason and empty project. -/
def scoreRelevance (tweetText : String) (projects : List ProjectKeywords) : ScoreResult :=
  projects.foldl (scoreStep (strToLower tweetText)) { score := 0, reason := "", project := "" }

/-- A single project's relevance score for a lowered text, as the source
computes it: 3 when at least three keywords (lowercased) occur, 2 when one or
two occur, 0 when none occur. -/
def projScore (text : String) (pk : ProjectKeywords) : Nat :=
  let m := (matchedKeywords text pk).length
  if 3 ≤ m then 3 else if 1 ≤ m then 2 else 0

/-- The per-project score as the claim words it: count the keywords that occur
in the lowered text **as written** (the keyword is *not* lowercased first).
This definition follows the specification's words, for comparison with the
source's `projScore`; the two differ on keyword tables containing uppercase
letters. -/
def projScoreLiteral (text : String) (pk : ProjectKeywords) : Nat :=
  let m := (pk.keywords.filter (fun kw => strIncludes text kw)).length
  if 3 ≤ m then 3 else if 1 ≤ m then 2 else 0

/-- Maximum of a list of naturals (0 for the empty list). -/
def listMaxN (l : List Nat) : Nat := l.foldr max 0

/-- The `reason` string `scoreRelevance` builds when a project wins. -/
def mkReason (text : String) (pk : ProjectKeywords) : String :=
  "Matches " ++ pk.project ++ ": " ++ String.intercalate ", " ((matchedKeywords text pk).take 3)

theorem scoreStep_eq (text : String) (best : ScoreResult) (pk : ProjectKeywords) :
    scoreStep text best pk =
      if best.score < projScore text pk then
        { score := projScore text pk, reason := mkReason text pk, project := pk.project }
      else best := by
  unfold scoreStep projScore mkReason
  rcases Nat.eq_zero_or_pos (matchedKeywords text pk).length with h0 | hpos
  · simp [h0]
  · have hne : ¬ (matchedKeywords text pk).length = 0 := Nat.pos_iff_ne_zero.mp hpos
    have h1 : 1 ≤ (matchedKeywords text pk).length := hpos
    by_cases h3 : 3 ≤ (matchedKeywords text pk).length
    · simp [hne, h3]
    · simp [hne, h3, h1]

/-- The best score only grows along the fold. -/
theorem foldl_scoreStep_score_mono (text : String) :
    ∀ (ps : List ProjectKeywords) (acc : ScoreResult),
      acc.score ≤ (ps.foldl (scoreStep text) acc).score
  | [], acc => Nat.le_refl _
  | pk :: rest, acc => by
    simp only [List.foldl_cons]
    refine Nat.le_trans ?_ (foldl_scoreStep_score_mono text rest (scoreStep text acc pk))
    rw [scoreStep_eq]
    split
    · exact Nat.le_of_lt (by assumption)
    · exact Nat.le_refl _

/-- If the fold did not raise the score, it did not change the accumulator. -/
theorem foldl_scoreStep_no_update (text : String) :
    ∀ (ps : List ProjectKeywords) (acc : ScoreResult),
      (ps.foldl (scoreStep text) acc).score = acc.score →
      ps.foldl (scoreStep text) acc = acc
  | [], _, _ => rfl
  | pk :: rest, acc, h => by
    simp only [List.foldl_cons] at h ⊢
    rw [scoreStep_eq] at h ⊢
    by_cases hlt : acc.score < projScore text pk
    · rw [if_pos hlt] at h
      exfalso
      have hm := foldl_scoreStep_score_mono text rest
        { score := projScore text pk, reason := mkReason text pk, project := pk.project }
      rw [h] at hm
      exact Nat.not_lt.mpr hm hlt
    · rw [if_neg hlt] at h ⊢
      exact foldl_scoreStep_no_update text rest acc h

/-- The final score of the fold is the maximum of the initial score and the
per-project scores. -/
theorem foldl_scoreStep_score (text : String) :
    ∀ (ps : List ProjectKeywords) (acc : ScoreResult),
      (ps.foldl (scoreStep text) acc).score =
        max acc.score (listMaxN (ps.map (projScore text)))
  | [], acc => by simp [listMaxN]
  | pk :: rest, acc => by
    simp only [List.foldl_cons, List.map_cons, listMaxN, List.foldr_cons]
    rw [foldl_scoreStep_score text rest (scoreStep text acc pk), scoreStep_eq]
    have : (listMaxN (rest.map (projScore text))) = (rest.map (projScore text)).foldr max 0 := rfl
    split
    · next hlt => simp only [listMaxN] at *; omega
    · next hge => simp only [listMaxN] at *; omega

/-- When the fold strictly improves on the initial score, the winner is the
first project attaining the final score, and every project before it scores
strictly less. -/
theorem foldl_scoreStep_first (text : String) :
    ∀ (ps : List ProjectKeywords) (acc : ScoreResult),
      acc.score < (ps.foldl (scoreStep text) acc).score →
      ∃ i : Fin ps.length,
        projScore text (ps.get i) = (ps.foldl (scoreStep text) acc).score ∧
        (ps.foldl (scoreStep text) acc).project = (ps.get i).project ∧
        ∀ j : Fin ps.length, j.val < i.val →
          projScore text (ps.get j) < (ps.foldl (scoreStep text) acc).score
  | [], acc, h => absurd h (Nat.lt_irrefl _)
  | pk :: rest, acc, h => by
    simp only [List.foldl_cons] at h ⊢
    by_cases hup : (scoreStep text acc pk).score < (rest.foldl (scoreStep text) (scoreStep text acc pk)).score
    · -- the winner lives in `rest`
      obtain ⟨i, hi1, hi2, hi3⟩ := foldl_scoreStep_first text rest (scoreStep text acc pk) hup
      refine ⟨⟨i.val + 1, by simp only [List.length_cons]; exact Nat.succ_lt_succ i.isLt⟩, ?_, ?_, ?_⟩
      · simpa using hi1
      · simpa using hi2
      · intro j hj
        match j with
        | ⟨0, _⟩ =>
          -- the head project scores at most the accumulator after its own step
          have hpk : projScore text pk ≤ (scoreStep text acc pk).score := by
            rw [scoreStep_eq]; split
            · exact Nat.le_refl _
            · exact Nat.le_of_not_lt (by assumption)
          simpa using Nat.lt_of_le_of_lt hpk hup
        | ⟨jv + 1, hjlt⟩ =>
          have : jv < i.val := Nat.lt_of_succ_lt_succ hj
          simpa using hi3 ⟨jv, by simpa using Nat.lt_of_succ_lt_succ hjlt⟩ this
    · -- no later improvement: the head must have caused the rise
      have heq : (rest.foldl (scoreStep text) (scoreStep text acc pk)).score
          = (scoreStep text acc pk).score :=
        Nat.le_antisymm (Nat.le_of_not_lt hup) (foldl_scoreStep_score_mono text rest _)
      have hfix := foldl_scoreStep_no_update text rest (scoreStep text acc pk) heq
      rw [hfix] at h ⊢
      rw [scoreStep_eq] at h ⊢
      by_cases hlt : acc.score < projScore text pk
      · rw [if_pos hlt] at h ⊢
        refine ⟨⟨0, Nat.succ_pos _⟩, rfl, rfl, ?_⟩
        intro j hj
        exact absurd hj (Nat.not_lt_zero _)
      · rw [if_neg hlt] at h
        exact absurd h (Nat.lt_irrefl _)

/-! ## Project-keyword derivation (`extractProjectKeywords`, bookmarks.ts lines 106–142) -/

/-- A JavaScript word character (`\w` without the unicode flag): ASCII letter,
digit, or underscore. -/
def isWordChar (c : Char) : Bool := c.isAlpha || c.isDigit || c = '_'

/-- An ASCII lowercase letter (`[a-z]`). -/
def isLowerAZ (c : Char) : Bool := 'a' ≤ c && c ≤ 'z'

/-- Split a character list into its maximal runs of word characters, in
order (`acc` holds the current run, reversed). -/
def wordRunsAux : List Char → List Char → List (List Char)
  | [], acc => if acc = [] then [] else [acc.reverse]
  | c :: t, acc =>
    if isWordChar c then wordRunsAux t (c :: acc)
    else if acc = [] then wordRunsAux t [] else acc.reverse :: wordRunsAux t []

/-- `s.match(/\b[a-z]{4,}\b/g) || []` on an already-lowercased string: the
maximal word-character runs that consist solely of `[a-z]` and have length at
least 4 (a run touching a digit or underscore has no word boundary inside, so
it matches only as a whole). -/
def tokenizeWords (s : String) : List String :=
  ((wordRunsAux s.data []).filter (fun r => 4 ≤ r.length && r.all isLowerAZ)).map
    (fun r => String.mk r)

/-- The fixed stop-word set of `extractProjectKeywords`. -/
def stopWords : List String :=
  ["with", "this", "that", "from", "have", "will", "been", "they", "their",
   "status", "next", "action", "last", "worked"]

/-- The keyword list derived from one project section: lowercase the section,
take its `[a-z]{4,}` word-boundary tokens, drop the stop words, keep the
first 10 occurrences (`slice(0, 10)`), then deduplicate (`[...new Set(...)]`). -/
def keywordsOfSection (sec : String) : List String :=
  let toks := tokenizeWords (strToLower sec)
  let words := (toks.filter (fun w => !(stopWords.contains w))).take 10
  dedupFirst words

/-- The count of *distinct* eligible words (lowercase, length ≥ 4, non-stop)
in a section, with no cap — the quantity the specification's "more than 10
distinct eligible words" refers to. -/
def distinctEligibleCount (sec : String) : Nat :=
  (dedupFirst ((tokenizeWords (strToLower sec)).filter (fun w => !(stopWords.contains w)))).length

/-- The `projectMatches.map(...)` body of `extractProjectKeywords`: for each
line matching `^## (.+)$`, the project name is the line after `"## "` with
whitespace trimmed, and its section runs from the first occurrence of the
header line in the document to the next `"\n## "` (or the end). -/
def extractedProjects (content : String) : List ProjectKeywords :=
  let cs := content.data
  let headerLines := (splitLinesAux cs []).filter
    (fun l => leadsWith "## ".data l && 4 ≤ l.length)
  headerLines.map (fun m =>
    let name := strTrim (String.mk (m.drop 3))
    let sectionStart := (strIndexOfFrom cs m 0).getD 0
    let nextSection := strIndexOfFrom cs "\n## ".data (sectionStart + 1)
    let sectionChars := match nextSection with
      | some j => (cs.take j).drop sectionStart
      | none => cs.drop sectionStart
    { project := name, keywords := keywordsOfSection (String.mk sectionChars) })

/-- The built-in default project-keyword table (bookmarks.ts lines 107–114). -/
def defaultProjects : List ProjectKeywords :=
  [{ project := "BNKR/Bankr",
     keywords := ["bankr", "bnkr", "clanker", "token launch", "onchain", "launchpad",
                  "vesting", "earnings mechanism"] },
   { project := "belief-router",
     keywords := ["trade thesis", "belief router", "market thesis", "investment thesis",
                  "options", "perp", "kalshi"] },
   { project := "x-research",
     keywords := ["x api", "twitter api", "bookmarks", "tweet search",
                  "social media research"] },
   { project := "sell-radar",
     keywords := ["sell signal", "ladder", "mcap", "dexscreener", "portfolio management"] },
   { project := "Anthropic",
     keywords := ["anthropic", "claude", "llm", "ai agent", "solutions architect",
                  "applied ai"] },
   { project := "trading",
     keywords := ["solana", "base", "memecoin", "fomo", "dex", "wallet", "defi", "pnl"] }]

/-- `extractProjectKeywords()`: `none` stands for a missing or unreadable
project document (the `existsSync` guard and the `catch` both yield the
defaults); with content, the extracted table when it is nonempty, the
defaults otherwise. -/
def extractProjectKeywords (content : Option String) : List ProjectKeywords :=
  match content with
  | none => defaultProjects
  | some c =>
    let extracted := extractedProjects c
    if extracted.length = 0 then defaultProjects else extracted

/-! ## State management (`loadSeen`/`saveSeen`/`loadAlerts`/`saveAlerts`,
bookmarks.ts lines 169–196) -/

/-- What reading and JSON-parsing the seen file can come to: the file is
missing (`existsSync` false), unreadable (`readFileSync` throws), holds
malformed JSON (`JSON.parse` throws), or holds a parsed JSON value — an array
of strings, or anything that is not an array (`Array.isArray` false). -/
inductive SeenFileRead where
  | missing
  | readError
  | parseError
  | jsonArray (ids : List String)
  | jsonOther
  deriving DecidableEq, Repr

/-- `loadSeen()`: missing, unreadable and malformed files all give the empty
set; a parsed array gives the set of its elements (a JavaScript `Set` keeps
first occurrences); any other JSON value gives the empty set. -/
def loadSeen : SeenFileRead → List String
  | .missing => []
  | .readError => []
  | .parseError => []
  | .jsonArray ids => dedupFirst ids
  | .jsonOther => []

/-- `seen.add(id)` on a JavaScript `Set` modelled as an ordered list without
duplicates: append when absent. -/
def addSeen (s : List String) (id : String) : List String :=
  if s.contains id then s else s ++ [id]

theorem mem_addSeen (s : List String) (id x : String) :
    x ∈ addSeen s id ↔ x ∈ s ∨ x = id := by
  unfold addSeen
  by_cases h : s.contains id
  · rw [if_pos h]
    constructor
    · exact Or.inl
    · rintro (hx | rfl)
      · exact hx
      · exact List.elem_iff.mp h
  · rw [if_neg h]
    simp [List.mem_append]

/-! ## Bookmarks API (`lookupUserId`/`fetchBookmarks`, bookmarks.ts lines 63–97) -/

/-- A fetched bookmark item. -/
structure Bookmark where
  id : String
  text : String
  created_at : String
  deriving DecidableEq, Inhabited, Repr

/-- The part of an HTTP response the script inspects: the status code, the
body text, and the `data` field of the parsed JSON body (absent models
`json.data` being undefined). -/
structure HttpResponse where
  status : Nat
  body : String
  data : Option (List Bookmark)
  deriving DecidableEq, Repr

/-- `Response.ok` of the fetch API: status in the inclusive range 200–299. -/
def respOk (status : Nat) : Bool := 200 ≤ status && status ≤ 299

/-- The specialized 401 error message of `fetchBookmarks`. -/
def authFailedMessage (status : Nat) : String :=
  "Auth failed (" ++ toString status ++ "). Your OAuth2 token may be expired.\n" ++
  "Run: bun run scripts/auth/get-bookmark-token.ts to refresh."

/-- The generic non-2xx error message of `fetchBookmarks`. -/
def bookmarksApiErrorMessage (status : Nat) (body : String) : String :=
  "Bookmarks API error: " ++ toString status ++ " " ++ body

/-- `fetchBookmarks` applied to the response of its one listing request:
non-ok responses raise (the 401 message or the generic one), an ok response
yields `json.data || []`.  There is a single request and no retry. -/
def fetchBookmarksResult (res : HttpResponse) : Except String (List Bookmark) :=
  if !(respOk res.status) then
    if res.status = 401 then Except.error (authFailedMessage res.status)
    else Except.error (bookmarksApiErrorMessage res.status res.body)
  else Except.ok (res.data.getD [])

/-- An outbound GET request with a bearer token, as the script builds it. -/
structure ApiRequest where
  url : String
  bearerToken : String
  deriving DecidableEq, Repr

/-- The one request `lookupUserId(token)` sends: the username in the URL is
the hardcoded literal `frankdegods`; the token only enters the
`Authorization` header. -/
def lookupUserRequest (token : String) : ApiRequest :=
  { url := "https://api.x.com/2/users/by/username/frankdegods?user.fields=id",
    bearerToken := token }

/-! ## The ingest run (`main`, bookmarks.ts lines 242–295) -/

/-- One persisted alert (the object pushed in the ingest loop). -/
structure Alert where
  id : String
  url : String
  text : String
  relevance_score : Nat
  reason : String
  project : String
  timestamp : String
  deriving DecidableEq, Repr

/-- The alert built for a relevant bookmark (`now` is the run's
`new Date().toISOString()`). -/
def mkAlert (bm : Bookmark) (r : ScoreResult) (now : String) : Alert :=
  { id := bm.id,
    url := "https://x.com/i/web/status/" ++ bm.id,
    text := bm.text,
    relevance_score := r.score,
    reason := r.reason,
    project := r.project,
    timestamp := now }

/-- The body of the `for (const bm of newBookmarks)` loop: mark the id seen,
score the text, and append an alert when the score is at least 2. -/
def processBookmark (projects : List ProjectKeywords) (now : String)
    (st : List String × List Alert) (bm : Bookmark) : List String × List Alert :=
  let seen := addSeen st.1 bm.id
  let r := scoreRelevance bm.text projects
  if 2 ≤ r.score then (seen, st.2 ++ [mkAlert bm r now]) else (seen, st.2)

/-- Everything the default (ingest) run of the script reads from its
surroundings: the resolved token, the environment user id (when set), the
outcome the username lookup would have, the response of the bookmarks
listing request, the seen file, the loaded alert list, the project document
(`none` for missing/unreadable), and the clock. -/
structure IngestEnv where
  token : String
  envUserId : Option String
  lookupUser : Except String String
  bookmarksResponse : HttpResponse
  seenFile : SeenFileRead
  alertsPrior : List Alert
  projectsFile : Option String
  now : String

/-- What the ingest run did: its exit code, the lookup request it sent (if
any), the contents written to the seen and alert files (`none` when the file
was not written), and the items it passed to `scoreRelevance`. -/
structure IngestResult where
  exitCode : Nat
  lookupRequest : Option ApiRequest
  seenWritten : Option (List String)
  alertsWritten : Option (List Alert)
  scored : List Bookmark
  deriving Repr

/-- The default run of bookmarks.ts, after a token was found: resolve the
user id (looking up the hardcoded username when the environment has none),
fetch the bookmarks, diff against the loaded seen-set, exit early when
nothing is new, otherwise score each unseen item and write both files once
at the end.  The `catch` of the source maps any raised error to exit code 1
with nothing written. -/
def runIngest (env : IngestEnv) : IngestResult :=
  let idAndReq : Except String String × Option ApiRequest :=
    match env.envUserId with
    | some u => (Except.ok u, none)
    | none => (env.lookupUser, some (lookupUserRequest env.token))
  match idAndReq with
  | (Except.error _, req) => ⟨1, req, none, none, []⟩
  | (Except.ok _, req) =>
    match fetchBookmarksResult env.bookmarksResponse with
    | Except.error _ => ⟨1, req, none, none, []⟩
    | Except.ok bookmarks =>
      let seen := loadSeen env.seenFile
      let newBookmarks := bookmarks.filter (fun b => !(seen.contains b.id))
      if newBookmarks.length = 0 then ⟨0, req, none, none, []⟩
      else
        let projects := extractProjectKeywords env.projectsFile
        let st := newBookmarks.foldl (processBookmark projects env.now) (seen, env.alertsPrior)
        ⟨0, req, some st.1, some st.2, newBookmarks⟩

/-- What a whole invocation did (any mode). -/
structure CliResult where
  exitCode : Nat
  seenWritten : Option (List String)
  alertsWritten : Option (List Alert)
  scored : List Bookmark
  deriving Repr

/-- The script's top level (bookmarks.ts lines 200–295): `--show` prints and
exits 0 writing nothing; otherwise `--clear` writes an empty alert list and
exits 0; otherwise a missing token exits 1 writing nothing; otherwise the
ingest run. -/
def runCli (args : List String) (tokenFound : Option String) (env : IngestEnv) : CliResult :=
  if args.contains "--show" then ⟨0, none, none, []⟩
  else if args.contains "--clear" then ⟨0, none, some [], []⟩
  else
    match tokenFound with
    | none => ⟨1, none, none, []⟩
    | some _ =>
      let r := runIngest env
      ⟨r.exitCode, r.seenWritten, r.alertsWritten, r.scored⟩

/-- The seen-set as persisted after a run: the written contents, or the prior
set when the file was not written. -/
def finalSeen (r : IngestResult) (prior : List String) : List String :=
  r.seenWritten.getD prior

/-! ## The authorizer (`scripts/auth/get-bookmark-token.ts`) -/

/-- Standard UTF-8 encoding of one character, as `Buffer`/`Hash.update`
perform it on a JavaScript string. -/
def utf8EncodeCharNat (c : Char) : List Nat :=
  let n := c.toNat
  if n < 128 then [n]
  else if n < 2048 then [192 + n / 64, 128 + n % 64]
  else if n < 65536 then [224 + n / 4096, 128 + (n / 64) % 64, 128 + n % 64]
  else [240 + n / 262144, 128 + (n / 4096) % 64, 128 + (n / 64) % 64, 128 + n % 64]

/-- The UTF-8 bytes of a string, as natural numbers below 256. -/
def utf8Bytes (s : String) : List Nat :=
  s.data.flatMap utf8EncodeCharNat

/-- Right rotation of a 32-bit word. -/
def rotr32 (x n : Nat) : Nat :=
  ((x >>> n) ||| (x <<< (32 - n))) % 4294967296

/-- The 64 SHA-256 round constants (FIPS 180-4, written in decimal). -/
def shaK : List Nat :=
  [1116352408, 1899447441, 3049323471, 3921009573, 961987163, 1508970993,
   2453635748, 2870763221, 3624381080, 310598401, 607225278, 1426881987,
   1925078388, 2162078206, 2614888103, 3248222580, 3835390401, 4022224774,
   264347078, 604807628, 770255983, 1249150122, 1555081692, 1996064986,
   2554220882, 2821834349, 2952996808, 3210313671, 3336571891, 3584528711,
   113926993, 338241895, 666307205, 773529912, 1294757372, 1396182291,
   1695183700, 1986661051, 2177026350, 2456956037, 2730485921, 2820302411,
   3259730800, 3345764771, 3516065817, 3600352804, 4094571909, 275423344,
   430227734, 506948616, 659060556, 883997877, 958139571, 1322822218,
   1537002063, 1747873779, 1955562222, 2024104815, 2227730452, 2361852424,
   2428436474, 2756734187, 3204031479, 3329325298]

/-- The big-endian bytes of `x` in `n` byte positions. -/
def toBytesBE (n x : Nat) : List Nat :=
  (List.range n).map (fun i => (x >>> (8 * (n - 1 - i))) % 256)

/-- SHA-256 message padding: append `0x80`, zeros to 56 mod 64, and the
bit length as 8 big-endian bytes. -/
def sha256Pad (msg : List Nat) : List Nat :=
  let L := msg.length
  let padZeros := (119 - L % 64) % 64
  msg ++ [128] ++ List.replicate padZeros 0 ++ toBytesBE 8 (8 * L)

/-- Split into 64-byte blocks (`fuel` bounds the recursion depth so that the
definition is structural; `chunks64` supplies the list's length, which always
suffices since every step consumes at least one byte). -/
def chunks64Aux : Nat → List Nat → List (List Nat)
  | 0, _ => []
  | _, [] => []
  | fuel + 1, b :: rest => (b :: rest).take 64 :: chunks64Aux fuel ((b :: rest).drop 64)

/-- Split into 64-byte blocks. -/
def chunks64 (l : List Nat) : List (List Nat) := chunks64Aux l.length l

/-- The sixteen 32-bit big-endian words of a 64-byte block. -/
def blockWords (block : List Nat) : List Nat :=
  (List.range 16).map (fun i =>
    (block.getD (4 * i) 0) * 16777216 + (block.getD (4 * i + 1) 0) * 65536 +
    (block.getD (4 * i + 2) 0) * 256 + block.getD (4 * i + 3) 0)

/-- Extend sixteen schedule words to sixty-four. -/
def shaSchedule (w16 : List Nat) : List Nat :=
  (List.range 48).foldl (fun ws i =>
    let t := i + 16
    let w15 := ws.getD (t - 15) 0
    let w2 := ws.getD (t - 2) 0
    let s0 := rotr32 w15 7 ^^^ rotr32 w15 18 ^^^ (w15 >>> 3)
    let s1 := rotr32 w2 17 ^^^ rotr32 w2 19 ^^^ (w2 >>> 10)
    ws ++ [(ws.getD (t - 16) 0 + s0 + ws.getD (t - 7) 0 + s1) % 4294967296]) w16

/-- The eight working variables of the compression loop. -/
structure ShaState where
  a : Nat
  b : Nat
  c : Nat
  d : Nat
  e : Nat
  f : Nat
  g : Nat
  h : Nat

/-- One round of the SHA-256 compression function. -/
def shaRound (st : ShaState) (wt kt : Nat) : ShaState :=
  let S1 := rotr32 st.e 6 ^^^ rotr32 st.e 11 ^^^ rotr32 st.e 25
  let ch := (st.e &&& st.f) ^^^ ((st.e ^^^ 4294967295) &&& st.g)
  let temp1 := (st.h + S1 + ch + kt + wt) % 4294967296
  let S0 := rotr32 st.a 2 ^^^ rotr32 st.a 13 ^^^ rotr32 st.a 22
  let maj := (st.a &&& st.b) ^^^ (st.a &&& st.c) ^^^ (st.b &&& st.c)
  let temp2 := (S0 + maj) % 4294967296
  { a := (temp1 + temp2) % 4294967296, b := st.a, c := st.b, d := st.c,
    e := (st.d + temp1) % 4294967296, f := st.e, g := st.f, h := st.g }

/-- The eight hash words as a state record. -/
structure ShaHash where
  h0 : Nat
  h1 : Nat
  h2 : Nat
  h3 : Nat
  h4 : Nat
  h5 : Nat
  h6 : Nat
  h7 : Nat

/-- The SHA-256 initial hash value. -/
def shaInit : ShaHash :=
  { h0 := 1779033703, h1 := 3144134277, h2 := 1013904242, h3 := 2773480762,
    h4 := 1359893119, h5 := 2600822924, h6 := 528734635, h7 := 1541459225 }

/-- Process one 64-byte block. -/
def shaBlock (hs : ShaHash) (block : List Nat) : ShaHash :=
  let ws := shaSchedule (blockWords block)
  let st0 : ShaState :=
    { a := hs.h0, b := hs.h1, c := hs.h2, d := hs.h3,
      e := hs.h4, f := hs.h5, g := hs.h6, h := hs.h7 }
  let st := (ws.zip shaK).foldl (fun s wk => shaRound s wk.1 wk.2) st0
  { h0 := (hs.h0 + st.a) % 4294967296, h1 := (hs.h1 + st.b) % 4294967296,
    h2 := (hs.h2 + st.c) % 4294967296, h3 := (hs.h3 + st.d) % 4294967296,
    h4 := (hs.h4 + st.e) % 4294967296, h5 := (hs.h5 + st.f) % 4294967296,
    h6 := (hs.h6 + st.g) % 4294967296, h7 := (hs.h7 + st.h) % 4294967296 }

/-- The SHA-256 digest of a byte list: 32 bytes. -/
def sha256Bytes (msg : List Nat) : List Nat :=
  let hs := (chunks64 (sha256Pad msg)).foldl shaBlock shaInit
  toBytesBE 4 hs.h0 ++ toBytesBE 4 hs.h1 ++ toBytesBE 4 hs.h2 ++ toBytesBE 4 hs.h3 ++
  toBytesBE 4 hs.h4 ++ toBytesBE 4 hs.h5 ++ toBytesBE 4 hs.h6 ++ toBytesBE 4 hs.h7

/-- The URL-safe base64 alphabet (RFC 4648 §5), as `digest("base64url")`
uses it; it contains no `=`. -/
def b64urlAlphabet : String :=
  "ABCDEFGHIJKLMNOPQRSTUVWXYZabcdefghijklmnopqrstuvwxyz0123456789-_"

/-- The alphabet character at a 6-bit index. -/
def b64Char (n : Nat) : Char := b64urlAlphabet.data.getD n 'A'

/-- URL-safe base64 without padding: 3 bytes to 4 characters, a 2-byte tail
to 3 characters, a 1-byte tail to 2, and no `=` appended. -/
def b64Groups : List Nat → List Char
  | b0 :: b1 :: b2 :: rest =>
    b64Char (b0 / 4) :: b64Char ((b0 % 4) * 16 + b1 / 16) ::
    b64Char ((b1 % 16) * 4 + b2 / 64) :: b64Char (b2 % 64) :: b64Groups rest
  | [b0, b1] =>
    [b64Char (b0 / 4), b64Char ((b0 % 4) * 16 + b1 / 16), b64Char ((b1 % 16) * 4)]
  | [b0] => [b64Char (b0 / 4), b64Char ((b0 % 4) * 16)]
  | [] => []

/-- `Buffer.toString("base64url")`: URL-safe, unpadded base64 of a byte list. -/
def base64urlEncode (bytes : List Nat) : String :=
  String.mk (b64Groups bytes)

/-- `generateCodeChallenge(verifier)` (get-bookmark-token.ts lines 29–31):
`createHash("sha256").update(verifier).digest("base64url")` — the URL-safe
unpadded base64 of the SHA-256 digest of the verifier's UTF-8 bytes. -/
def generateCodeChallenge (verifier : String) : String :=
  base64urlEncode (sha256Bytes (utf8Bytes verifier))

/-- The in-memory secrets of one authorization attempt. -/
structure AuthSession where
  clientId : String
  clientSecret : String
  codeVerifier : String
  state : String
  deriving DecidableEq, Repr

/-- The POST the authorizer sends to the token endpoint on a valid callback
(get-bookmark-token.ts lines 81–94). -/
structure TokenExchangeRequest where
  url : String
  grant_type : String
  code : String
  redirect_uri : String
  code_verifier : String
  client_id : String
  deriving DecidableEq, Repr

def tokenExchangeRequest (sess : AuthSession) (code : String) : TokenExchangeRequest :=
  { url := "https://api.twitter.com/2/oauth2/token",
    grant_type := "authorization_code",
    code := code,
    redirect_uri := "http://localhost:3000/callback",
    code_verifier := sess.codeVerifier,
    client_id := sess.clientId }

/-- What the one-shot callback listener does with a request: reject it with
an HTTP status and body and perform no exchange, or answer 200 and perform
the token exchange. -/
inductive CallbackOutcome where
  | rejected (status : Nat) (body : String)
  | accepted (status : Nat) (exchange : TokenExchangeRequest)
  deriving DecidableEq, Repr

/-- The callback handler (get-bookmark-token.ts lines 60–94): no `code`
parameter answers 400 and returns; a returned `state` differing from the
generated nonce answers 400 and returns; otherwise 200 and the exchange. -/
def handleCallback (sess : AuthSession) (code : Option String)
    (returnedState : Option String) : CallbackOutcome :=
  match code with
  | none => CallbackOutcome.rejected 400 "No code received"
  | some c =>
    if returnedState ≠ some sess.state then
      CallbackOutcome.rejected 400 "State mismatch — possible CSRF"
    else CallbackOutcome.accepted 200 (tokenExchangeRequest sess c)

/-! ## Helper lemmas about the ingest run -/

/-- The two filter halves of a list partition its length. -/
theorem length_filter_split {α : Type} (l : List α) (p : α → Bool) :
    (l.filter p).length + (l.filter (fun a => !(p a))).length = l.length := by
  induction l with
  | nil => rfl
  | cons a t ih =>
    cases hb : p a <;> simp [List.filter_cons, hb] <;> omega

/-- `contains` on string lists agrees with membership. -/
theorem containsStr_iff (l : List String) (x : String) :
    l.contains x = true ↔ x ∈ l :=
  List.elem_iff

/-- The seen-set component of the loop body is `addSeen`, whatever the score. -/
theorem processBookmark_fst (projects : List ProjectKeywords) (now : String)
    (st : List String × List Alert) (bm : Bookmark) :
    (processBookmark projects now st bm).1 = addSeen st.1 bm.id := by
  unfold processBookmark
  dsimp only
  split <;> rfl

/-- Membership in the seen-set accumulated by the ingest loop: the initial
set plus the ids of the processed bookmarks. -/
theorem processFold_mem (projects : List ProjectKeywords) (now : String) :
    ∀ (l : List Bookmark) (st : List String × List Alert) (x : String),
      x ∈ (l.foldl (processBookmark projects now) st).1 ↔
        x ∈ st.1 ∨ ∃ b ∈ l, x = b.id
  | [], st, x => by simp
  | bm :: rest, st, x => by
    simp only [List.foldl_cons]
    rw [processFold_mem projects now rest (processBookmark projects now st bm) x]
    rw [processBookmark_fst, mem_addSeen]
    constructor
    · rintro ((hx | rfl) | ⟨b, hb, rfl⟩)
      · exact Or.inl hx
      · exact Or.inr ⟨bm, List.mem_cons_self _ _, rfl⟩
      · exact Or.inr ⟨b, List.mem_cons_of_mem _ hb, rfl⟩
    · rintro (hx | ⟨b, hb, rfl⟩)
      · exact Or.inl (Or.inl hx)
      · rcases List.mem_cons.mp hb with rfl | hb
        · exact Or.inl (Or.inr rfl)
        · exact Or.inr ⟨b, hb, rfl⟩

/-- The lookup request the run sends (computed before anything can fail). -/
def lookupReqOf (env : IngestEnv) : Option ApiRequest :=
  match env.envUserId with
  | some _ => none
  | none => some (lookupUserRequest env.token)

/-- When the user id resolves and the listing request succeeds with `bs`,
the run reduces to the diff-and-score tail. -/
theorem runIngest_eq_of_ok (env : IngestEnv) (bs : List Bookmark)
    (hid : env.envUserId.isSome = true ∨ ∃ u, env.lookupUser = Except.ok u)
    (hfetch : fetchBookmarksResult env.bookmarksResponse = Except.ok bs) :
    runIngest env =
      (if (bs.filter (fun b => !((loadSeen env.seenFile).contains b.id))).length = 0 then
        ⟨0, lookupReqOf env, none, none, []⟩
      else
        let newB := bs.filter (fun b => !((loadSeen env.seenFile).contains b.id))
        let st := newB.foldl
          (processBookmark (extractProjectKeywords env.projectsFile) env.now)
          (loadSeen env.seenFile, env.alertsPrior)
        ⟨0, lookupReqOf env, some st.1, some st.2, newB⟩) := by
  unfold runIngest lookupReqOf
  cases henv : env.envUserId with
  | some u =>
    dsimp only
    rw [hfetch]
  | none =>
    dsimp only
    rcases hid with h | ⟨v, hv⟩
    · rw [henv] at h; simp at h
    · rw [hv]
      dsimp only
      rw [hfetch]

/-! ## Helper lemmas about the challenge derivation and the tokenizer -/

/-- A SHA-256 digest is 32 bytes, whatever the message. -/
theorem sha256Bytes_length (msg : List Nat) : (sha256Bytes msg).length = 32 := by
  simp [sha256Bytes, toBytesBE]

/-- Length of the unpadded base64 output. -/
theorem b64Groups_length : ∀ l : List Nat,
    (b64Groups l).length =
      4 * (l.length / 3) + (if l.length % 3 = 0 then 0 else l.length % 3 + 1)
  | [] => rfl
  | [_] => by simp only [b64Groups, List.length_cons, List.length_nil]; norm_num
  | [_, _] => by simp only [b64Groups, List.length_cons, List.length_nil]; norm_num
  | b0 :: b1 :: b2 :: rest => by
    simp only [b64Groups, List.length_cons]
    rw [b64Groups_length rest]
    have hmod : (rest.length + 1 + 1 + 1) % 3 = rest.length % 3 := by omega
    have hdiv : (rest.length + 1 + 1 + 1) / 3 = rest.length / 3 + 1 := by omega
    rw [hmod, hdiv]
    split <;> omega

/-- Every alphabet index yields a character of the URL-safe alphabet. -/
theorem b64Char_mem (n : Nat) : b64Char n ∈ b64urlAlphabet.data := by
  unfold b64Char
  by_cases h : n < b64urlAlphabet.data.length
  · rw [List.getD_eq_getElem?_getD, List.getElem?_eq_getElem h, Option.getD_some]
    exact List.getElem_mem h
  · rw [List.getD_eq_getElem?_getD, List.getElem?_eq_none (Nat.le_of_not_lt h), Option.getD_none]
    decide

/-- Every character the base64 encoder emits lies in the URL-safe alphabet. -/
theorem b64Groups_chars : ∀ (l : List Nat) (c : Char),
    c ∈ b64Groups l → c ∈ b64urlAlphabet.data
  | [], c, hc => by cases hc
  | [b0], c, hc => by
    rcases List.mem_cons.mp hc with rfl | hc
    · exact b64Char_mem _
    · rcases List.mem_cons.mp hc with rfl | hc
      · exact b64Char_mem _
      · cases hc
  | [b0, b1], c, hc => by
    rcases List.mem_cons.mp hc with rfl | hc
    · exact b64Char_mem _
    · rcases List.mem_cons.mp hc with rfl | hc
      · exact b64Char_mem _
      · rcases List.mem_cons.mp hc with rfl | hc
        · exact b64Char_mem _
        · cases hc
  | b0 :: b1 :: b2 :: rest, c, hc => by
    simp only [b64Groups] at hc
    rcases List.mem_cons.mp hc with rfl | hc
    · exact b64Char_mem _
    · rcases List.mem_cons.mp hc with rfl | hc
      · exact b64Char_mem _
      · rcases List.mem_cons.mp hc with rfl | hc
        · exact b64Char_mem _
        · rcases List.mem_cons.mp hc with rfl | hc
          · exact b64Char_mem _
          · exact b64Groups_chars rest c hc

/-- Every token of the tokenizer is a lowercase `[a-z]` word of length ≥ 4. -/
theorem tokenizeWords_props (s : String) (w : String) (hw : w ∈ tokenizeWords s) :
    4 ≤ w.length ∧ w.data.all isLowerAZ = true := by
  unfold tokenizeWords at hw
  rcases List.mem_map.mp hw with ⟨r, hr, rfl⟩
  have := List.mem_filter.mp hr
  have hprops := this.2
  rw [Bool.and_eq_true] at hprops
  refine ⟨?_, hprops.2⟩
  have : (String.mk r).length = r.length := rfl
  rw [this]
  exact of_decide_eq_true hprops.1

/-! ## The claims -/

/-- C1 (counterexample): the claim reads the per-project count as "how many
of that project's keywords occur as substrings of the lowercased text", but
the source lowercases each *keyword* too (`text.includes(kw.toLowerCase())`,
line 154).  For the text `"claude"` and the single-project table with the
one keyword `"CLAUDE"`, no keyword occurs as written in the lowercased text
(so the claimed maximum is 0), yet `scoreRelevance` returns score 2 with
that project. -/
theorem scoreRelevance_keyword_case_cex :
    (scoreRelevance "claude" [{ project := "p", keywords := ["CLAUDE"] }]).score = 2 ∧
    (scoreRelevance "claude" [{ project := "p", keywords := ["CLAUDE"] }]).project = "p" ∧
    projScoreLiteral (strToLower "claude") { project := "p", keywords := ["CLAUDE"] } = 0 ∧
    listMaxN (([{ project := "p", keywords := ["CLAUDE"] }] : List ProjectKeywords).map
      (projScoreLiteral (strToLower "claude"))) = 0 := by
  refine ⟨?_, ?_, ?_, ?_⟩ <;> decide

/-- C1 (amended): `scoreRelevance` lowercases the text and, for each project
independently, counts how many of that project's keywords — each keyword
lowercased — occur as substrings of the lowercased text; the project's score
is 3 if at least 3 keywords match, 2 if 1 or 2 match, and 0 if none match
(`projScore`); the returned score is the maximum of the per-project scores,
the returned project is the first project in table order achieving that
maximum (every earlier project scores strictly less), and a result of score
0 carries the empty project label. -/
theorem scoreRelevance_spec (t : String) (ps : List ProjectKeywords) :
    (scoreRelevance t ps).score = listMaxN (ps.map (projScore (strToLower t))) ∧
    ((scoreRelevance t ps).score = 0 → (scoreRelevance t ps).project = "") ∧
    (0 < (scoreRelevance t ps).score →
      ∃ i : Fin ps.length,
        projScore (strToLower t) (ps.get i) = (scoreRelevance t ps).score ∧
        (scoreRelevance t ps).project = (ps.get i).project ∧
        ∀ j : Fin ps.length, j.val < i.val →
          projScore (strToLower t) (ps.get j) < (scoreRelevance t ps).score) := by
  unfold scoreRelevance
  refine ⟨?_, ?_, ?_⟩
  · rw [foldl_scoreStep_score]
    simp
  · intro h0
    have hfix := foldl_scoreStep_no_update (strToLower t) ps
      { score := 0, reason := "", project := "" } h0
    rw [hfix]
  · intro hpos
    exact foldl_scoreStep_first (strToLower t) ps { score := 0, reason := "", project := "" } hpos

/-- C2: the one-shot callback listener rejects a request without a `code`
parameter, and a request whose returned `state` differs from the generated
nonce, with HTTP 400 and no token-exchange request; the exchange is
performed only when a code is present and the returned state equals the
nonce exactly. -/
theorem handleCallback_guards (sess : AuthSession) (code returnedState : Option String) :
    ((code = none ∨ returnedState ≠ some sess.state) →
      handleCallback sess code returnedState =
        CallbackOutcome.rejected 400
          (if code = none then "No code received" else "State mismatch — possible CSRF")) ∧
    (∀ st ex, handleCallback sess code returnedState = CallbackOutcome.accepted st ex →
      code ≠ none ∧ returnedState = some sess.state ∧ st = 200 ∧
      ex = tokenExchangeRequest sess (code.getD "")) := by
  constructor
  · intro h
    cases code with
    | none => rfl
    | some c =>
      rcases h with h | h
      · exact absurd h (Option.some_ne_none c)
      · simp only [handleCallback]
        rw [if_pos h]
        simp
  · intro st ex h
    cases code with
    | none =>
      simp only [handleCallback] at h
      exact CallbackOutcome.noConfusion h
    | some c =>
      simp only [handleCallback] at h
      by_cases hs : returnedState = some sess.state
      · rw [if_neg (by simpa using hs)] at h
        refine ⟨Option.some_ne_none c, hs, ?_, ?_⟩
        · cases h; rfl
        · cases h; rfl
      · rw [if_pos hs] at h
        cases h

/-- C3: when the user id resolves and the listing call returns `bs`, the run
exits 0, exactly the unseen items (the fetched items whose id is not in the
loaded seen-set) are passed to scoring — N−M of them, where M is the number
of fetched items already seen — and the persisted seen-set afterwards holds
exactly the prior ids united with all fetched ids. -/
theorem runIngest_seen_union_scored (env : IngestEnv) (bs : List Bookmark)
    (hid : env.envUserId.isSome = true ∨ ∃ u, env.lookupUser = Except.ok u)
    (hfetch : fetchBookmarksResult env.bookmarksResponse = Except.ok bs) :
    (runIngest env).exitCode = 0 ∧
    (runIngest env).scored =
      bs.filter (fun b => !((loadSeen env.seenFile).contains b.id)) ∧
    (runIngest env).scored.length =
      bs.length - (bs.filter (fun b => (loadSeen env.seenFile).contains b.id)).length ∧
    ∀ x : String, x ∈ finalSeen (runIngest env) (loadSeen env.seenFile) ↔
      x ∈ loadSeen env.seenFile ∨ x ∈ bs.map Bookmark.id := by
  rw [runIngest_eq_of_ok env bs hid hfetch]
  have hsplit := length_filter_split bs (fun b => (loadSeen env.seenFile).contains b.id)
  by_cases hlen :
      (bs.filter (fun b => !((loadSeen env.seenFile).contains b.id))).length = 0
  · rw [if_pos hlen]
    have hnil : bs.filter (fun b => !((loadSeen env.seenFile).contains b.id)) = [] :=
      List.length_eq_zero.mp hlen
    refine ⟨rfl, hnil.symm, by dsimp; omega, ?_⟩
    intro x
    dsimp [finalSeen]
    constructor
    · exact Or.inl
    · rintro (hx | hx)
      · exact hx
      · rcases List.mem_map.mp hx with ⟨b, hb, rfl⟩
        have hb2 := List.filter_eq_nil_iff.mp hnil b hb
        have hb3 : (loadSeen env.seenFile).contains b.id = true := by simpa using hb2
        exact (containsStr_iff _ _).mp hb3
  · rw [if_neg hlen]
    refine ⟨rfl, rfl, by dsimp; omega, ?_⟩
    intro x
    simp only [finalSeen, Option.getD_some]
    rw [processFold_mem]
    constructor
    · rintro (hx | ⟨b, hb, rfl⟩)
      · exact Or.inl hx
      · exact Or.inr (List.mem_map_of_mem Bookmark.id (List.mem_of_mem_filter hb))
    · rintro (hx | hx)
      · exact Or.inl hx
      · rcases List.mem_map.mp hx with ⟨b, hb, rfl⟩
        by_cases hc : (loadSeen env.seenFile).contains b.id = true
        · exact Or.inl ((containsStr_iff _ _).mp hc)
        · refine Or.inr ⟨b, List.mem_filter.mpr ⟨hb, ?_⟩, rfl⟩
          rw [Bool.not_eq_true] at hc
          rw [hc]
          rfl

/-- A bookmark already recorded in the sample seen file. -/
def wBookmarkSeen : Bookmark := { id := "1", text := "old news", created_at := "t1" }

/-- A bookmark not yet seen. -/
def wBookmarkNew : Bookmark := { id := "2", text := "anthropic claude llm", created_at := "t2" }

/-- A concrete ingest environment: user id in the environment, a 200 response
carrying one seen and one unseen bookmark, a seen file holding id "1". -/
def wEnvC3 : IngestEnv :=
  { token := "tok", envUserId := some "42", lookupUser := Except.error "unused",
    bookmarksResponse := { status := 200, body := "", data := some [wBookmarkSeen, wBookmarkNew] },
    seenFile := SeenFileRead.jsonArray ["1"], alertsPrior := [], projectsFile := none,
    now := "2026-01-01T00:00:00.000Z" }

/-- C3 at the concrete environment `wEnvC3`. -/
theorem runIngest_seen_union_scored_witness :
    (runIngest wEnvC3).exitCode = 0 ∧
    (runIngest wEnvC3).scored =
      [wBookmarkSeen, wBookmarkNew].filter
        (fun b => !((loadSeen wEnvC3.seenFile).contains b.id)) ∧
    (runIngest wEnvC3).scored.length =
      [wBookmarkSeen, wBookmarkNew].length -
        ([wBookmarkSeen, wBookmarkNew].filter
          (fun b => (loadSeen wEnvC3.seenFile).contains b.id)).length ∧
    ∀ x : String, x ∈ finalSeen (runIngest wEnvC3) (loadSeen wEnvC3.seenFile) ↔
      x ∈ loadSeen wEnvC3.seenFile ∨ x ∈ [wBookmarkSeen, wBookmarkNew].map Bookmark.id :=
  runIngest_seen_union_scored wEnvC3 [wBookmarkSeen, wBookmarkNew] (Or.inl rfl) rfl

/-- C10: when every fetched bookmark id is already in the loaded seen-set,
the run exits 0 before scoring anything, and neither the seen file nor the
alert file is written. -/
theorem runIngest_all_seen_noop (env : IngestEnv) (bs : List Bookmark)
    (hid : env.envUserId.isSome = true ∨ ∃ u, env.lookupUser = Except.ok u)
    (hfetch : fetchBookmarksResult env.bookmarksResponse = Except.ok bs)
    (hseen : ∀ b ∈ bs, (loadSeen env.seenFile).contains b.id = true) :
    (runIngest env).exitCode = 0 ∧ (runIngest env).seenWritten = none ∧
    (runIngest env).alertsWritten = none ∧ (runIngest env).scored = [] := by
  rw [runIngest_eq_of_ok env bs hid hfetch]
  have hnil : bs.filter (fun b => !((loadSeen env.seenFile).contains b.id)) = [] := by
    rw [List.filter_eq_nil_iff]
    intro b hb
    rw [hseen b hb]
    simp
  rw [hnil]
  simp

/-- A concrete environment whose one fetched bookmark is already seen. -/
def wEnvC10 : IngestEnv :=
  { token := "tok", envUserId := some "42", lookupUser := Except.error "unused",
    bookmarksResponse := { status := 200, body := "", data := some [wBookmarkSeen] },
    seenFile := SeenFileRead.jsonArray ["1"], alertsPrior := [], projectsFile := none,
    now := "2026-01-01T00:00:00.000Z" }

/-- C10 at the concrete environment `wEnvC10`. -/
theorem runIngest_all_seen_noop_witness :
    (runIngest wEnvC10).exitCode = 0 ∧ (runIngest wEnvC10).seenWritten = none ∧
    (runIngest wEnvC10).alertsWritten = none ∧ (runIngest wEnvC10).scored = [] :=
  runIngest_all_seen_noop wEnvC10 [wBookmarkSeen] (Or.inl rfl) rfl (by decide)

/-- C6: a missing, unreadable, or malformed-JSON seen file loads as the
empty set rather than raising, and an ingest run over such a file treats
every fetched item as new (all of them are passed to scoring) and still
exits 0. -/
theorem loadSeen_corrupt_safe (f : SeenFileRead) (env : IngestEnv) (bs : List Bookmark)
    (hf : f = SeenFileRead.missing ∨ f = SeenFileRead.readError ∨ f = SeenFileRead.parseError)
    (henv : env.seenFile = f)
    (hid : env.envUserId.isSome = true ∨ ∃ u, env.lookupUser = Except.ok u)
    (hfetch : fetchBookmarksResult env.bookmarksResponse = Except.ok bs) :
    loadSeen f = [] ∧
    (runIngest env).exitCode = 0 ∧
    (runIngest env).scored = bs := by
  have hload : loadSeen f = [] := by
    rcases hf with rfl | rfl | rfl <;> rfl
  have hall : bs.filter (fun b => !(([] : List String).contains b.id)) = bs := by
    rw [List.filter_eq_self]
    intro b _
    rfl
  refine ⟨hload, ?_, ?_⟩
  · rw [runIngest_eq_of_ok env bs hid hfetch, henv, hload, hall]
    split <;> rfl
  · rw [runIngest_eq_of_ok env bs hid hfetch, henv, hload, hall]
    split
    · next h => exact (List.length_eq_zero.mp h).symm
    · rfl

/-- A concrete environment whose seen file holds malformed JSON. -/
def wEnvC6 : IngestEnv :=
  { token := "tok", envUserId := some "42", lookupUser := Except.error "unused",
    bookmarksResponse := { status := 200, body := "", data := some [wBookmarkNew] },
    seenFile := SeenFileRead.parseError, alertsPrior := [], projectsFile := none,
    now := "2026-01-01T00:00:00.000Z" }

/-- C6 at the concrete environment `wEnvC6`. -/
theorem loadSeen_corrupt_safe_witness :
    loadSeen SeenFileRead.parseError = [] ∧
    (runIngest wEnvC6).exitCode = 0 ∧
    (runIngest wEnvC6).scored = [wBookmarkNew] :=
  loadSeen_corrupt_safe SeenFileRead.parseError wEnvC6 [wBookmarkNew]
    (Or.inr (Or.inr rfl)) rfl (Or.inl rfl) rfl

/-- C7: a non-2xx response to the bookmarks listing is fatal: the call
yields an error — the specialized authentication message when the status is
401, the generic message carrying the status and the body otherwise — and
an ingest run receiving such a response exits 1 without writing either
file.  A single request is made; no retry exists in the model. -/
theorem fetchBookmarks_non2xx (res : HttpResponse) (env : IngestEnv)
    (hres : respOk res.status = false)
    (henv : env.bookmarksResponse = res)
    (hid : env.envUserId.isSome = true ∨ ∃ u, env.lookupUser = Except.ok u) :
    fetchBookmarksResult res =
      Except.error (if res.status = 401 then authFailedMessage res.status
                    else bookmarksApiErrorMessage res.status res.body) ∧
    (runIngest env).exitCode = 1 ∧
    (runIngest env).seenWritten = none ∧
    (runIngest env).alertsWritten = none ∧
    (runIngest env).scored = [] := by
  have herr : fetchBookmarksResult res =
      Except.error (if res.status = 401 then authFailedMessage res.status
                    else bookmarksApiErrorMessage res.status res.body) := by
    unfold fetchBookmarksResult
    rw [hres]
    simp only [Bool.not_false, if_true]
    by_cases h401 : res.status = 401
    · rw [if_pos h401, if_pos h401]
    · rw [if_neg h401, if_neg h401]
  refine ⟨herr, ?_⟩
  unfold runIngest
  cases henvid : env.envUserId with
  | some u =>
    dsimp only
    rw [henv, herr]
    exact ⟨rfl, rfl, rfl, rfl⟩
  | none =>
    dsimp only
    rcases hid with h | ⟨v, hv⟩
    · rw [henvid] at h
      simp at h
    · rw [hv]
      dsimp only
      rw [henv, herr]
      exact ⟨rfl, rfl, rfl, rfl⟩

/-- A 401 response and an environment receiving it. -/
def wRes401 : HttpResponse := { status := 401, body := "unauthorized", data := none }

def wEnvC7 : IngestEnv :=
  { token := "tok", envUserId := some "42", lookupUser := Except.error "unused",
    bookmarksResponse := wRes401, seenFile := SeenFileRead.missing, alertsPrior := [],
    projectsFile := none, now := "2026-01-01T00:00:00.000Z" }

/-- C7 at the concrete 401 response `wRes401`. -/
theorem fetchBookmarks_non2xx_witness :
    fetchBookmarksResult wRes401 =
      Except.error (if wRes401.status = 401 then authFailedMessage wRes401.status
                    else bookmarksApiErrorMessage wRes401.status wRes401.body) ∧
    (runIngest wEnvC7).exitCode = 1 ∧
    (runIngest wEnvC7).seenWritten = none ∧
    (runIngest wEnvC7).alertsWritten = none ∧
    (runIngest wEnvC7).scored = [] :=
  fetchBookmarks_non2xx wRes401 wEnvC7 rfl rfl (Or.inl rfl)

/-- C8: an invocation with `--clear` (and without `--show`, which takes
precedence) writes the empty alert list, does not write the seen file, and
exits 0 — whatever the prior state. -/
theorem runCli_clear (args : List String) (tok : Option String) (env : IngestEnv)
    (hshow : args.contains "--show" = false)
    (hclear : args.contains "--clear" = true) :
    runCli args tok env =
      { exitCode := 0, seenWritten := none, alertsWritten := some [], scored := [] } := by
  unfold runCli
  rw [hshow, hclear]
  rfl

/-- C8 at the concrete argument list `["--clear"]`. -/
theorem runCli_clear_witness :
    runCli ["--clear"] (some "tok") wEnvC3 =
      { exitCode := 0, seenWritten := none, alertsWritten := some [], scored := [] } :=
  runCli_clear ["--clear"] (some "tok") wEnvC3 rfl rfl

/-- C9: whenever the environment yields no user id, the run sends the
username-lookup request whose URL names the hardcoded username
`frankdegods` — the URL is a fixed constant, identical whatever access
token is supplied, so the looked-up id is never derived from the token's
owner. -/
theorem lookupUserId_hardcoded (env : IngestEnv) (h : env.envUserId = none) :
    (runIngest env).lookupRequest = some (lookupUserRequest env.token) ∧
    (lookupUserRequest env.token).url =
      "https://api.x.com/2/users/by/username/frankdegods?user.fields=id" ∧
    ∀ t u : String, (lookupUserRequest t).url = (lookupUserRequest u).url := by
  refine ⟨?_, rfl, fun t u => rfl⟩
  unfold runIngest
  rw [h]
  dsimp only
  cases env.lookupUser with
  | error e => rfl
  | ok v =>
    dsimp only
    cases fetchBookmarksResult env.bookmarksResponse with
    | error e => rfl
    | ok bs =>
      dsimp only
      split
      · rfl
      · rfl

/-- An environment with no user id configured. -/
def wEnvC9 : IngestEnv :=
  { token := "tok", envUserId := none, lookupUser := Except.ok "99",
    bookmarksResponse := { status := 200, body := "", data := some [] },
    seenFile := SeenFileRead.missing, alertsPrior := [], projectsFile := none,
    now := "2026-01-01T00:00:00.000Z" }

/-- C9 at the concrete environment `wEnvC9`. -/
theorem lookupUserId_hardcoded_witness :
    (runIngest wEnvC9).lookupRequest = some (lookupUserRequest wEnvC9.token) ∧
    (lookupUserRequest wEnvC9.token).url =
      "https://api.x.com/2/users/by/username/frankdegods?user.fields=id" ∧
    ∀ t u : String, (lookupUserRequest t).url = (lookupUserRequest u).url :=
  lookupUserId_hardcoded wEnvC9 rfl

/-- Shape of the keyword list derived from one section: at most 10 keywords,
each a lowercase non-stop word of length at least 4, and equal to the
deduplication of the *first 10* eligible word occurrences (the cap precedes
the deduplication). -/
theorem keywordsOfSection_props (sec : String) :
    (keywordsOfSection sec).length ≤ 10 ∧
    (∀ w ∈ keywordsOfSection sec,
      4 ≤ w.length ∧ w.data.all isLowerAZ = true ∧ stopWords.contains w = false) ∧
    keywordsOfSection sec =
      dedupFirst (((tokenizeWords (strToLower sec)).filter
        (fun w => !(stopWords.contains w))).take 10) := by
  refine ⟨?_, ?_, rfl⟩
  · exact Nat.le_trans (dedupFirst_length_le _) (List.length_take_le _ _)
  · intro w hw
    have h1 : w ∈ ((tokenizeWords (strToLower sec)).filter
        (fun w => !(stopWords.contains w))).take 10 :=
      mem_of_mem_dedupFirst _ w hw
    have h2 := List.mem_of_mem_take h1
    have h3 := List.mem_filter.mp h2
    have h4 := tokenizeWords_props (strToLower sec) w h3.1
    refine ⟨h4.1, h4.2, ?_⟩
    have := h3.2
    simpa using this

/-- C4 (amended): every project entry extracted from the project document
carries at most 10 keywords, each of them a lowercase word of length at
least 4 outside the stop-word set; the keyword list is the deduplication of
the first 10 eligible word occurrences of its section — the cap of 10 is
applied before deduplication, so a section with more than 10 distinct
eligible words may keep fewer than 10 keywords. -/
theorem extractProjectKeywords_keyword_shape (content : String) (pk : ProjectKeywords)
    (hpk : pk ∈ extractedProjects content) :
    pk.keywords.length ≤ 10 ∧
    (∀ w ∈ pk.keywords,
      4 ≤ w.length ∧ w.data.all isLowerAZ = true ∧ stopWords.contains w = false) ∧
    ∃ sec : String, pk.keywords =
      dedupFirst (((tokenizeWords (strToLower sec)).filter
        (fun w => !(stopWords.contains w))).take 10) := by
  unfold extractedProjects at hpk
  rcases List.mem_map.mp hpk with ⟨m, _, rfl⟩
  dsimp only
  obtain ⟨hlen, hprops, heq⟩ := keywordsOfSection_props
    (String.mk (match strIndexOfFrom content.data "\n## ".data
        (((strIndexOfFrom content.data m 0).getD 0) + 1) with
      | some j => (content.data.take j).drop ((strIndexOfFrom content.data m 0).getD 0)
      | none => content.data.drop ((strIndexOfFrom content.data m 0).getD 0)))
  exact ⟨hlen, hprops, _, heq⟩

/-- A project document whose single section has 12 distinct eligible words. -/
def demoProjectDoc : String :=
  "## Demo\naaaa aaaa bbbb cccc dddd eeee ffff gggg hhhh iiii jjjj kkkk"

/-- C4 (counterexample): the claim says a section with more than 10 distinct
eligible words keeps exactly 10 keywords.  In `demoProjectDoc` the one
section (the whole document) has 12 distinct eligible words, yet the
extracted entry keeps only 9 keywords: the source caps at 10 *word
occurrences* (`slice(0, 10)`) before deduplicating (`[...new Set(...)]`),
and the duplicate occurrence of "aaaa" inside the first 10 costs a slot. -/
theorem extractProjectKeywords_cap_cex :
    extractedProjects demoProjectDoc =
      [{ project := "Demo", keywords := keywordsOfSection demoProjectDoc }] ∧
    10 < distinctEligibleCount demoProjectDoc ∧
    (keywordsOfSection demoProjectDoc).length = 9 := by
  refine ⟨by decide, by decide, by decide⟩

/-- A small project document and the entry extracted from it. -/
def wProjectDoc : String := "## Sample\nanthropic claude bookmarks research automation"

def wProjectPk : ProjectKeywords :=
  { project := "Sample",
    keywords := ["sample", "anthropic", "claude", "bookmarks", "research", "automation"] }

/-- C4 at the concrete document `wProjectDoc`. -/
theorem extractProjectKeywords_keyword_shape_witness :
    wProjectPk.keywords.length ≤ 10 ∧
    (∀ w ∈ wProjectPk.keywords,
      4 ≤ w.length ∧ w.data.all isLowerAZ = true ∧ stopWords.contains w = false) ∧
    ∃ sec : String, wProjectPk.keywords =
      dedupFirst (((tokenizeWords (strToLower sec)).filter
        (fun w => !(stopWords.contains w))).take 10) :=
  extractProjectKeywords_keyword_shape wProjectDoc wProjectPk (by decide)

/-- C5: the PKCE challenge is the URL-safe, unpadded base64 encoding of the
SHA-256 digest of the verifier's bytes: a 32-byte digest, a 43-character
challenge drawn entirely from the URL-safe alphabet with no `=` padding,
and the derivation is deterministic — equal verifiers give equal
challenges. -/
theorem generateCodeChallenge_spec (v : String) :
    generateCodeChallenge v = base64urlEncode (sha256Bytes (utf8Bytes v)) ∧
    (sha256Bytes (utf8Bytes v)).length = 32 ∧
    (generateCodeChallenge v).length = 43 ∧
    (∀ c ∈ (generateCodeChallenge v).data, c ∈ b64urlAlphabet.data) ∧
    '=' ∉ (generateCodeChallenge v).data ∧
    ∀ w : String, w = v → generateCodeChallenge w = generateCodeChallenge v := by
  have hlen32 := sha256Bytes_length (utf8Bytes v)
  have hchars : ∀ c ∈ (generateCodeChallenge v).data, c ∈ b64urlAlphabet.data :=
    fun c hc => b64Groups_chars _ c hc
  refine ⟨rfl, hlen32, ?_, hchars, ?_, ?_⟩
  · show (b64Groups (sha256Bytes (utf8Bytes v))).length = 43
    rw [b64Groups_length, hlen32]
    decide
  · intro hmem
    exact absurd (hchars '=' hmem) (by decide)
  · intro w hw
    rw [hw]

/- Sanity check against a standard test vector:
sha256("test") = 9f86d081..., whose URL-safe base64 is the string below. -/
set_option maxRecDepth 10000 in
example : generateCodeChallenge "test" = "n4bQgYhMfWWaL-qgxVrQFaO_TxsrC4Is0V1sFbDwCgg" := by
  decide
